import Mathlib

/-!
Verification of the `ergo_fs` directory-walk core (`src/walk.rs`).

The development shallowly embeds the two components of the core:

* `WalkBuild` — the traversal builder (`src/walk.rs`, lines 45-203), a pair of
  the root `PathDir` and the underlying `walkdir::WalkDir` configuration, with
  six delegating configuration setters;
* `PathDirEntry` — one yielded traversal result (`src/walk.rs`, lines 205-275),
  a raw `walkdir::DirEntry` together with the `PathType` classification
  computed once at construction by `PathType::new(entry.path())`.

Paths are modelled as lists of components (`List String`); the filesystem seen
by the stat-based classifier is an abstract map from paths to file kinds; the
external collaborators (the `path_abs` classifier and the `walkdir`
enumeration engine) are modelled from the spec's description of their
interfaces and from the doc comments in `src/walk.rs`.
-/

namespace ErgoFs

/-- What a stat-equivalent call reports a path to be. -/
inductive FileKind where
  | file
  | dir
  | other
deriving DecidableEq

/-- An abstract filesystem: the stat view used by the classifier.
`none` means the path does not exist. -/
abbrev Fs := List String → Option FileKind

/-- `path_abs::PathType`: a path classified as an existing file or an existing
directory (the tagged union of `PathFile` and `PathDir`). -/
inductive PathType where
  | File (p : List String)
  | Dir (p : List String)
deriving DecidableEq

/-- Classification failure: the path vanished between enumeration and stat, or
is neither a regular file nor a directory. -/
inductive FsError where
  | notFound (p : List String)
  | notFileNorDir (p : List String)
deriving DecidableEq

/-- Modelled from the spec: the external typed-path classifier
`classify(rawPath) -> Result<File|Directory, ClassificationError>`
(`path_abs::PathType::new`), used once per yielded entry. It stats the path
and tags it as `File` or `Dir`, failing on a missing path or on a
non-regular, non-directory node. -/
def PathType.new (fs : Fs) (p : List String) : Except FsError PathType :=
  match fs p with
  | some FileKind.file => Except.ok (PathType.File p)
  | some FileKind.dir => Except.ok (PathType.Dir p)
  | some FileKind.other => Except.error (FsError.notFileNorDir p)
  | none => Except.error (FsError.notFound p)

/-- Modelled from the spec: the raw entry record supplied by the external
depth-first enumeration engine (`walkdir::DirEntry`): path, depth,
is-symlink flag and a file-type hint. The path is the full path of the
entry as yielded by the engine (the root joined with the entry's components
below the root). -/
structure DirEntry where
  path : List String
  depth : Nat
  pathIsSymlink : Bool
  fileTypeHint : FileKind
deriving DecidableEq

/-- `PathDirEntry` (`src/walk.rs`, lines 206-209): a classified `PathType`
together with the raw `walkdir::DirEntry` it was produced from. -/
structure PathDirEntry where
  ty : PathType
  entry : DirEntry
deriving DecidableEq

/-- `PathDirEntry::new` (`src/walk.rs`, lines 212-228): classify the raw
entry's own path with `PathType::new(entry.path())` and store the result
alongside the raw entry; a classification failure fails the constructor. -/
def PathDirEntry.new (fs : Fs) (entry : DirEntry) : Except FsError PathDirEntry :=
  match PathType.new fs entry.path with
  | Except.ok ty => Except.ok { ty := ty, entry := entry }
  | Except.error e => Except.error e

/-- `PathDirEntry::to_type` (`src/walk.rs`, lines 231-233): a clone of the
stored classification (`self.ty.clone()`; the clone of the reference-counted
path value is value-identical). -/
def PathDirEntry.to_type (e : PathDirEntry) : PathType :=
  e.ty

/-- `PathDirEntry::was_symlink` (`src/walk.rs`, lines 239-241):
`self.entry.path_is_symlink()`. -/
def PathDirEntry.was_symlink (e : PathDirEntry) : Bool :=
  e.entry.pathIsSymlink

/-- `PathDirEntry::depth` (`src/walk.rs`, lines 248-250): `self.entry.depth()`. -/
def PathDirEntry.depth (e : PathDirEntry) : Nat :=
  e.entry.depth

/-- `impl AsRef<PathType> for PathDirEntry` (`src/walk.rs`, lines 253-257):
`&self.ty`. -/
def pathDirEntryAsRef (e : PathDirEntry) : PathType :=
  e.ty

/-- `impl Deref for PathDirEntry` (`src/walk.rs`, lines 259-265): `&self.ty`. -/
def pathDirEntryDeref (e : PathDirEntry) : PathType :=
  e.ty

/-- `impl Into<PathType> for PathDirEntry` (`src/walk.rs`, lines 267-275):
consume the entry, returning `self.ty`. -/
def pathDirEntryIntoPathType (e : PathDirEntry) : PathType :=
  e.ty

/-- Modelled from the spec: the configuration record of the external
enumeration engine `walkdir::WalkDir` (min/max depth limits, symlink-follow
toggle, open-handle budget, per-directory sort hook, contents-first toggle),
seeded with the root path. Defaults per the spec: min depth 0, unbounded max
depth (`none`), symlinks not followed, a reasonably low default handle
budget, no sort, contents-first false. -/
structure WalkDir where
  root : List String
  minDepth : Nat
  maxDepth : Option Nat
  followLinks : Bool
  maxOpen : Nat
  sorter : Option (DirEntry → DirEntry → Ordering)
  contentsFirst : Bool

/-- `walkdir::WalkDir::new(root)` with the default options. -/
def WalkDir.new (root : List String) : WalkDir :=
  { root := root
    minDepth := 0
    maxDepth := none
    followLinks := false
    maxOpen := 10
    sorter := none
    contentsFirst := false }

/-- Engine setter: store the minimum yield depth. -/
def WalkDir.min_depth (w : WalkDir) (depth : Nat) : WalkDir :=
  { w with minDepth := depth }

/-- Engine setter: store the maximum yield depth. -/
def WalkDir.max_depth (w : WalkDir) (depth : Nat) : WalkDir :=
  { w with maxDepth := some depth }

/-- Engine setter: store the symlink-follow flag. -/
def WalkDir.follow_links (w : WalkDir) (yes : Bool) : WalkDir :=
  { w with followLinks := yes }

/-- Engine setter: store the open-handle budget. Per the doc comment in
`src/walk.rs` (lines 98-99): `n` must be at least 1, and if `n` is 0 it is
set to 1 automatically. -/
def WalkDir.max_open (w : WalkDir) (n : Nat) : WalkDir :=
  { w with maxOpen := if n = 0 then 1 else n }

/-- Engine setter: store the sibling-sort comparator. -/
def WalkDir.sort_by (w : WalkDir) (cmp : DirEntry → DirEntry → Ordering) : WalkDir :=
  { w with sorter := some cmp }

/-- Engine setter: store the contents-first flag. -/
def WalkDir.contents_first (w : WalkDir) (yes : Bool) : WalkDir :=
  { w with contentsFirst := yes }

/-- `WalkBuild` (`src/walk.rs`, lines 45-48): the root `PathDir` together
with the underlying `walkdir::WalkDir` configuration. -/
structure WalkBuild where
  path : List String
  walk : WalkDir

/-- `WalkBuild::new` (`src/walk.rs`, lines 51-56). -/
def WalkBuild.new (path : List String) (walk : WalkDir) : WalkBuild :=
  { path := path, walk := walk }

/-- `WalkBuild::min_depth` (`src/walk.rs`, lines 63-65). -/
def WalkBuild.min_depth (b : WalkBuild) (depth : Nat) : WalkBuild :=
  WalkBuild.new b.path (b.walk.min_depth depth)

/-- `WalkBuild::max_depth` (`src/walk.rs`, lines 76-78). -/
def WalkBuild.max_depth (b : WalkBuild) (depth : Nat) : WalkBuild :=
  WalkBuild.new b.path (b.walk.max_depth depth)

/-- `WalkBuild::follow_links` (`src/walk.rs`, lines 91-93). -/
def WalkBuild.follow_links (b : WalkBuild) (yes : Bool) : WalkBuild :=
  WalkBuild.new b.path (b.walk.follow_links yes)

/-- `WalkBuild::max_open` (`src/walk.rs`, lines 120-122). -/
def WalkBuild.max_open (b : WalkBuild) (n : Nat) : WalkBuild :=
  WalkBuild.new b.path (b.walk.max_open n)

/-- `WalkBuild::sort_by` (`src/walk.rs`, lines 137-141). -/
def WalkBuild.sort_by (b : WalkBuild) (cmp : DirEntry → DirEntry → Ordering) : WalkBuild :=
  WalkBuild.new b.path (b.walk.sort_by cmp)

/-- `WalkBuild::contents_first` (`src/walk.rs`, lines 200-202). -/
def WalkBuild.contents_first (b : WalkBuild) (yes : Bool) : WalkBuild :=
  WalkBuild.new b.path (b.walk.contents_first yes)

/-- `impl PathDirWalk for PathDir`, `walk()` (`src/walk.rs`, lines 16-24):
`WalkBuild::new(self.clone(), walkdir::WalkDir::new(&self))` — the root is
cloned (a reference-counted, value-identical clone) into the builder and
used to seed the enumeration engine. -/
def pathDirWalk (p : List String) : WalkBuild :=
  WalkBuild.new p (WalkDir.new p)

/-- Modelled from the spec: a finite directory tree, the input to the
depth-first enumeration engine. A node is either a file or a directory with
an ordered list of children (`.` and `..` are never enumerated). -/
inductive FsTree where
  | file (name : String)
  | dir (name : String) (children : List FsTree)

/-- The name of a tree node. -/
def FsTree.name : FsTree → String
  | FsTree.file n => n
  | FsTree.dir n _ => n

mutual
/-- Modelled from the spec: the order in which the depth-first traversal
yields the nodes of a tree, as tree positions (lists of child indices, the
root being `[]`). With `contentsFirst = false` a directory is yielded before
its contents (pre-order); with `contentsFirst = true` after them
(post-order), matching the worked example in the `contents_first` doc
comment (`src/walk.rs`, lines 143-199). -/
def yieldOrder (cf : Bool) : FsTree → List (List Nat)
  | FsTree.file _ => [[]]
  | FsTree.dir _ cs =>
    if cf then yieldChildren cf 0 cs ++ [[]] else [] :: yieldChildren cf 0 cs

/-- Yield positions contributed by a list of sibling subtrees whose first
element has child index `i`. -/
def yieldChildren (cf : Bool) (i : Nat) : List FsTree → List (List Nat)
  | [] => []
  | c :: rest => (yieldOrder cf c).map (fun p => i :: p) ++ yieldChildren cf (i + 1) rest
end

/-- Whether a position (list of child indices) addresses a node of the tree. -/
def isPos : FsTree → List Nat → Bool
  | _, [] => true
  | FsTree.file _, _ :: _ => false
  | FsTree.dir _ cs, i :: rest =>
    match cs[i]? with
    | some c => isPos c rest
    | none => false

/-- The component path (names below the root) of the node at a position. -/
def childNames : FsTree → List Nat → List String
  | _, [] => []
  | FsTree.file _, _ :: _ => []
  | FsTree.dir _ cs, i :: rest =>
    match cs[i]? with
    | some c => c.name :: childNames c rest
    | none => []

/-- The file-type hint of the node at a position. -/
def kindAt : FsTree → List Nat → FileKind
  | FsTree.file _, [] => FileKind.file
  | FsTree.dir _ _, [] => FileKind.dir
  | FsTree.file _, _ :: _ => FileKind.other
  | FsTree.dir _ cs, i :: rest =>
    match cs[i]? with
    | some c => kindAt c rest
    | none => FileKind.other

/-- Modelled from the spec: the raw entry the enumeration engine yields for
the node at a position — the full path (root joined with the names below the
root), the depth (edge count from the root), the is-symlink flag and the
file-type hint. -/
def rawEntryAt (root : List String) (t : FsTree) (pos : List Nat) : DirEntry :=
  { path := root ++ childNames t pos
    depth := pos.length
    pathIsSymlink := false
    fileTypeHint := kindAt t pos }

/-- Modelled from the spec: the terminal operation of the builder — the
conversion of a `WalkBuild` into the pull-based sequence of
`Result<PathDirEntry, Error>` values, one per traversal position, each
produced by classifying the raw entry at that position with
`PathDirEntry::new`. The sequence is finite (bounded by the tree) and its
order follows the builder's contents-first setting. `fs` is the stat view at
classification time, which may disagree with the enumerated tree (a path may
vanish between enumeration and stat). -/
def walkList (b : WalkBuild) (fs : Fs) (t : FsTree) : List (Except FsError PathDirEntry) :=
  (yieldOrder b.walk.contentsFirst t).map fun pos => PathDirEntry.new fs (rawEntryAt b.path t pos)

/-- Modelled from the spec: the follow-symlinks-aware raw entry construction
of the enumeration engine. The node's own link flag and kinds are given by
`isSymlink`, `ownKind` and `targetKind`; when following links a symlink
entry represents the target of the link (the file-type hint is the target's
kind) while the path and the is-symlink flag keep reflecting the link
itself (`src/walk.rs`, lines 80-93 and 235-241). -/
structure RawNode where
  isSymlink : Bool
  ownKind : FileKind
  targetKind : FileKind
deriving DecidableEq

/-- The raw entry the engine yields for a node under a given follow-links
setting. -/
def mkRawEntry (follow : Bool) (node : RawNode) (path : List String) (depth : Nat) : DirEntry :=
  { path := path
    depth := depth
    pathIsSymlink := node.isSymlink
    fileTypeHint := if follow && node.isSymlink then node.targetKind else node.ownKind }

/-- Modelled from the spec: the state of a partially-consumed traversal
sequence — an explicit stack of open-directory cursors (each frame is the
list of entries of an open directory handle not yet processed), together
with running counts of the directory handles opened and closed so far. -/
structure IterState where
  stack : List (List FsTree)
  openedCount : Nat
  closedCount : Nat

/-- Modelled from the spec: the initial traversal state — the root directory
handle has been opened and holds the root node. -/
def initState (t : FsTree) : IterState :=
  { stack := [[t]], openedCount := 1, closedCount := 0 }

/-- Modelled from the spec: one pull step of the traversal state machine.
An exhausted top frame closes its directory handle; a file entry is consumed;
a directory entry opens a new handle for its children (pushing a frame). A
finished traversal (empty stack) is left unchanged. -/
def stepState : IterState → IterState
  | { stack := [], openedCount := o, closedCount := c } =>
    { stack := [], openedCount := o, closedCount := c }
  | { stack := [] :: rest, openedCount := o, closedCount := c } =>
    { stack := rest, openedCount := o, closedCount := c + 1 }
  | { stack := (FsTree.file _ :: xs) :: rest, openedCount := o, closedCount := c } =>
    { stack := xs :: rest, openedCount := o, closedCount := c }
  | { stack := (FsTree.dir _ cs :: xs) :: rest, openedCount := o, closedCount := c } =>
    { stack := cs :: xs :: rest, openedCount := o + 1, closedCount := c }

/-- The traversal state after `n` pulls. -/
def runIter (n : Nat) (s : IterState) : IterState :=
  match n with
  | 0 => s
  | n + 1 => stepState (runIter n s)

/-- Modelled from the spec: destroying the sequence value closes every
directory handle still held by the traversal — one per stack frame — so this
is the total number of handles ever closed once the value is destroyed. -/
def closedAfterDestroy (s : IterState) : Nat :=
  s.closedCount + s.stack.length

/-- Modelled from the spec: the classification step as the spec describes it
for claim comparison — a classification that receives a clone of the
builder's RootPath together with the raw entry and resolves the raw entry's
path relative to that root before classifying. -/
def pathDirEntryNewSpecRooted (fs : Fs) (root : List String) (entry : DirEntry) :
    Except FsError PathDirEntry :=
  match PathType.new fs (root ++ entry.path) with
  | Except.ok ty => Except.ok { ty := ty, entry := entry }
  | Except.error e => Except.error e

/-- The classification outcome of an entry-construction result. -/
def classifiedType : Except FsError PathDirEntry → Except FsError PathType
  | Except.ok e => Except.ok e.ty
  | Except.error er => Except.error er

/-- A sample tree used by concrete witnesses: `root/(a.txt, sub/(b.txt))`. -/
def sampleTree : FsTree :=
  FsTree.dir "root" [FsTree.file "a.txt", FsTree.dir "sub" [FsTree.file "b.txt"]]

/-- A concrete stat view agreeing with `sampleTree` rooted at `root`. -/
def fsSample : Fs := fun p =>
  if p = ["root"] then some FileKind.dir
  else if p = ["root", "a.txt"] then some FileKind.file
  else if p = ["root", "sub"] then some FileKind.dir
  else if p = ["root", "sub", "b.txt"] then some FileKind.file
  else none

/-- The raw entry the engine yields for `root/a.txt` in `sampleTree`. -/
def rawSampleA : DirEntry :=
  rawEntryAt ["root"] sampleTree [0]

/-- A second raw entry with the same path as `rawSampleA` but different
depth and flags. -/
def rawSampleA2 : DirEntry :=
  { path := ["root", "a.txt"], depth := 2, pathIsSymlink := true,
    fileTypeHint := FileKind.other }

/-- The classified entry for `root/a.txt`. -/
def entrySampleA : PathDirEntry :=
  { ty := PathType.File ["root", "a.txt"], entry := rawSampleA }

/-- A concrete symlink node whose own path is a link to a file. -/
def lnkNode : RawNode :=
  { isSymlink := true, ownKind := FileKind.other, targetKind := FileKind.file }

/-- A stat view in which the link's path stats as a file. -/
def lnkFs : Fs := fun p =>
  if p = ["root", "lnk"] then some FileKind.file else none

/-- The classified entry for the symlink raw entry under follow-links. -/
def lnkEntry : PathDirEntry :=
  { ty := PathType.File ["root", "lnk"]
    entry := mkRawEntry true lnkNode ["root", "lnk"] 1 }

/-! Unfolding lemmas for the traversal-order functions. -/

theorem yieldOrder_file (cf : Bool) (n : String) : yieldOrder cf (FsTree.file n) = [[]] := by
  simp [yieldOrder]

theorem yieldOrder_dir (cf : Bool) (n : String) (cs : List FsTree) :
    yieldOrder cf (FsTree.dir n cs) =
      if cf then yieldChildren cf 0 cs ++ [[]] else [] :: yieldChildren cf 0 cs := by
  simp [yieldOrder]

theorem yieldChildren_nil (cf : Bool) (k : Nat) : yieldChildren cf k [] = [] := by
  simp [yieldChildren]

theorem yieldChildren_cons (cf : Bool) (k : Nat) (c : FsTree) (rest : List FsTree) :
    yieldChildren cf k (c :: rest) =
      (yieldOrder cf c).map (fun p => k :: p) ++ yieldChildren cf (k + 1) rest := by
  simp [yieldChildren]

/-- The block of positions contributed by the `i`-th sibling subtree is a
contiguous segment of the siblings' yield list. -/
theorem yieldChildren_infix (cf : Bool) :
    ∀ (cs : List FsTree) (k i : Nat) (c : FsTree), cs[i]? = some c →
      List.IsInfix ((yieldOrder cf c).map fun p => (k + i) :: p) (yieldChildren cf k cs) := by
  intro cs
  induction cs with
  | nil => intro k i c h; simp at h
  | cons c0 rest ih =>
    intro k i c h
    cases i with
    | zero =>
      simp only [List.getElem?_cons_zero, Option.some.injEq] at h
      subst h
      rw [yieldChildren_cons]
      simp only [Nat.add_zero]
      exact (List.prefix_append _ _).isInfix
    | succ i' =>
      have h' : rest[i']? = some c := by simpa using h
      have ih' := ih (k + 1) i' c h'
      have e : k + (i' + 1) = (k + 1) + i' := by omega
      rw [yieldChildren_cons, e]
      exact ih'.trans (List.suffix_append _ _).isInfix

/-- A position of the `j`-th sibling subtree occurs among the siblings'
yielded positions. -/
theorem mem_yieldChildren (cf : Bool) (cs : List FsTree) (j : Nat) (c : FsTree)
    (tail : List Nat) (hc : cs[j]? = some c) (ht : tail ∈ yieldOrder cf c) :
    (j :: tail) ∈ yieldChildren cf 0 cs := by
  have hinf := yieldChildren_infix cf cs 0 j c hc
  simp only [Nat.zero_add] at hinf
  exact hinf.sublist.subset (List.mem_map_of_mem (fun p => j :: p) ht)

/-- Every valid position of the tree is yielded. -/
theorem mem_yieldOrder_of_isPos (cf : Bool) :
    ∀ (p : List Nat) (t : FsTree), isPos t p = true → p ∈ yieldOrder cf t := by
  intro p
  induction p with
  | nil =>
    intro t _h
    cases t with
    | file n => simp [yieldOrder]
    | dir n cs => rw [yieldOrder_dir]; cases cf <;> simp
  | cons i rest ih =>
    intro t h
    cases t with
    | file n => simp [isPos] at h
    | dir n cs =>
      cases hc : cs[i]? with
      | none => simp [isPos, hc] at h
      | some c =>
        have hrest : isPos c rest = true := by simpa [isPos, hc] using h
        have hmem := mem_yieldChildren cf cs i c rest hc (ih c hrest)
        rw [yieldOrder_dir]
        cases cf <;> simp [hmem]

/-- Positions yielded for siblings starting at index `k` begin with an index
of at least `k`. -/
theorem yieldChildren_head_ge (cf : Bool) :
    ∀ (cs : List FsTree) (k : Nat), ∀ p ∈ yieldChildren cf k cs,
      ∃ m tl, p = m :: tl ∧ k ≤ m := by
  intro cs
  induction cs with
  | nil => intro k p hp; simp [yieldChildren] at hp
  | cons c rest ih =>
    intro k p hp
    rw [yieldChildren_cons] at hp
    rcases List.mem_append.1 hp with h | h
    · obtain ⟨q, _hq, rfl⟩ := List.mem_map.1 h
      exact ⟨k, q, rfl, Nat.le_refl k⟩
    · obtain ⟨m, tl, rfl, hm⟩ := ih (k + 1) p h
      exact ⟨m, tl, rfl, by omega⟩

mutual
/-- Each tree position is yielded at most once. -/
theorem yieldOrder_nodup (cf : Bool) : (t : FsTree) → (yieldOrder cf t).Nodup
  | FsTree.file n => by simp [yieldOrder]
  | FsTree.dir n cs => by
    have h := yieldChildren_nodup cf 0 cs
    have hne : [] ∉ yieldChildren cf 0 cs := by
      intro hmem
      obtain ⟨m, tl, he, _⟩ := yieldChildren_head_ge cf cs 0 _ hmem
      exact List.noConfusion he
    cases cf with
    | false => rw [yieldOrder_dir]; simpa using ⟨hne, h⟩
    | true =>
      rw [yieldOrder_dir]
      simp only [if_true]
      refine h.append (List.nodup_singleton _) ?_
      intro a ha hb
      simp only [List.mem_singleton] at hb
      subst hb
      exact hne ha

/-- Sibling subtrees contribute pairwise distinct positions. -/
theorem yieldChildren_nodup (cf : Bool) : (k : Nat) → (cs : List FsTree) → (yieldChildren cf k cs).Nodup
  | _, [] => by simp [yieldChildren]
  | k, c :: rest => by
    have h1 : ((yieldOrder cf c).map fun p => k :: p).Nodup :=
      (yieldOrder_nodup cf c).map List.cons_injective
    have h2 := yieldChildren_nodup cf (k + 1) rest
    rw [yieldChildren_cons]
    refine h1.append h2 ?_
    intro a ha hb
    obtain ⟨q, _hq, rfl⟩ := List.mem_map.1 ha
    obtain ⟨m, tl, he, hm⟩ := yieldChildren_head_ge cf rest (k + 1) _ hb
    injection he with h3 _
    omega
end

/-- An ancestor position is yielded strictly before its descendants in
pre-order and strictly after them in post-order. -/
theorem before_after :
    ∀ (q : List Nat) (t : FsTree) (j : Nat) (tail : List Nat),
      isPos t (q ++ j :: tail) = true →
      List.Sublist [q, q ++ j :: tail] (yieldOrder false t) ∧
      List.Sublist [q ++ j :: tail, q] (yieldOrder true t) := by
  intro q
  induction q with
  | nil =>
    intro t j tail h
    simp only [List.nil_append] at h ⊢
    cases t with
    | file n => simp [isPos] at h
    | dir n cs =>
      cases hc : cs[j]? with
      | none => simp [isPos, hc] at h
      | some c =>
        have htail : isPos c tail = true := by simpa [isPos, hc] using h
        constructor
        · have hm := mem_yieldChildren false cs j c tail hc
            (mem_yieldOrder_of_isPos false tail c htail)
          rw [yieldOrder_dir]
          simp only [if_neg Bool.false_ne_true]
          exact List.Sublist.cons₂ [] (List.singleton_sublist.2 hm)
        · have hm := mem_yieldChildren true cs j c tail hc
            (mem_yieldOrder_of_isPos true tail c htail)
          rw [yieldOrder_dir]
          simp only [if_true]
          exact List.Sublist.append (List.singleton_sublist.2 hm) (List.Sublist.refl [[]])
  | cons i q' ih =>
    intro t j tail h
    cases t with
    | file n => simp [isPos] at h
    | dir n cs =>
      rw [List.cons_append] at h
      cases hc : cs[i]? with
      | none => simp [isPos, hc] at h
      | some c =>
        have hrest : isPos c (q' ++ j :: tail) = true := by simpa [isPos, hc] using h
        obtain ⟨hf, ht⟩ := ih c j tail hrest
        have liftF : List.Sublist [i :: q', i :: (q' ++ j :: tail)] (yieldChildren false 0 cs) := by
          have hmap := hf.map (fun p => i :: p)
          have hinf := yieldChildren_infix false cs 0 i c hc
          simp only [Nat.zero_add] at hinf
          have hmap' : List.Sublist [i :: q', i :: (q' ++ j :: tail)]
              ((yieldOrder false c).map fun p => i :: p) := by simpa using hmap
          exact hmap'.trans hinf.sublist
        have liftT : List.Sublist [i :: (q' ++ j :: tail), i :: q'] (yieldChildren true 0 cs) := by
          have hmap := ht.map (fun p => i :: p)
          have hinf := yieldChildren_infix true cs 0 i c hc
          simp only [Nat.zero_add] at hinf
          have hmap' : List.Sublist [i :: (q' ++ j :: tail), i :: q']
              ((yieldOrder true c).map fun p => i :: p) := by simpa using hmap
          exact hmap'.trans hinf.sublist
        constructor
        · rw [yieldOrder_dir]
          simp only [if_neg Bool.false_ne_true, List.cons_append]
          exact liftF.cons []
        · rw [yieldOrder_dir]
          simp only [if_true, List.cons_append]
          exact liftT.trans (List.sublist_append_left _ _)

/-- One pull step preserves the handle accounting: the handles ever opened
are exactly the handles already closed plus the open ones on the stack. -/
theorem stepState_inv (s : IterState) (h : closedAfterDestroy s = s.openedCount) :
    closedAfterDestroy (stepState s) = (stepState s).openedCount := by
  obtain ⟨stack, o, c⟩ := s
  cases stack with
  | nil => simpa [stepState, closedAfterDestroy] using h
  | cons frame rest =>
    cases frame with
    | nil =>
      simp only [stepState, closedAfterDestroy, List.length_cons] at h ⊢
      omega
    | cons x xs =>
      cases x with
      | file m =>
        simpa [stepState, closedAfterDestroy] using h
      | dir m cs =>
        simp only [stepState, closedAfterDestroy, List.length_cons] at h ⊢
        omega

/-! The claims. -/

/-- C1: the core exposes a terminal operation on the builder — every
`WalkBuild` converts into a pull-based sequence whose elements are
`Result` values (`Except FsError PathDirEntry`), exactly one element per
traversal position. -/
theorem walkList_one_result_per_position (b : WalkBuild) (fs : Fs) (t : FsTree) :
    (walkList b fs t).length = (yieldOrder b.walk.contentsFirst t).length ∧
    ∀ r ∈ walkList b fs t, (∃ e, r = Except.ok e) ∨ ∃ er, r = Except.error er := by
  refine ⟨List.length_map _ _, ?_⟩
  intro r _hr
  cases r with
  | ok e => exact Or.inl ⟨e, rfl⟩
  | error er => exact Or.inr ⟨er, rfl⟩

/-- C2 counterexample: the classification performed at entry construction
(`PathType::new(entry.path())`, `src/walk.rs` line 225) is not the
root-receiving, root-resolving classification the claim describes. At the
concrete raw entry for `root/a.txt` the construction classifies the entry's
own path and succeeds, while the claimed classification — resolving the raw
entry's path relative to a clone of the builder's RootPath — looks up
`root/root/a.txt` and fails: no root handle is passed into the
classification step. -/
theorem classification_root_not_passed_cex :
    PathDirEntry.new fsSample rawSampleA ≠
      pathDirEntryNewSpecRooted fsSample ["root"] rawSampleA := by
  intro h
  have h1 : PathDirEntry.new fsSample rawSampleA = Except.ok entrySampleA := rfl
  have h2 : pathDirEntryNewSpecRooted fsSample ["root"] rawSampleA =
      Except.error (FsError.notFound ["root", "root", "a.txt"]) := rfl
  rw [h1, h2] at h
  exact Except.noConfusion h

/-- C2 amended: `walk()` clones the root (a reference-counted clone) into the
builder and seeds the enumeration engine with it, but the classification at
entry construction is a function of the filesystem and the raw entry's path
alone — two raw entries with the same path classify identically, whatever
else (and whatever builder root) they came from. -/
theorem root_cloned_to_builder_classify_by_path (p : List String) (fs : Fs)
    (e1 e2 : DirEntry) (h : e1.path = e2.path) :
    (pathDirWalk p).path = p ∧ (pathDirWalk p).walk.root = p ∧
    classifiedType (PathDirEntry.new fs e1) = classifiedType (PathDirEntry.new fs e2) := by
  refine ⟨rfl, rfl, ?_⟩
  unfold PathDirEntry.new
  rw [h]
  cases PathType.new fs e2.path with
  | ok ty => rfl
  | error er => rfl

/-- Witness for the amended C2 at concrete inputs: two raw entries sharing
the path `root/a.txt` but differing in depth and flags. -/
theorem root_cloned_to_builder_classify_by_path_witness :
    rawSampleA.path = rawSampleA2.path ∧
    ((pathDirWalk ["root"]).path = ["root"] ∧ (pathDirWalk ["root"]).walk.root = ["root"] ∧
      classifiedType (PathDirEntry.new fsSample rawSampleA) =
        classifiedType (PathDirEntry.new fsSample rawSampleA2)) :=
  ⟨rfl, root_cloned_to_builder_classify_by_path ["root"] fsSample rawSampleA rawSampleA2 rfl⟩

/-- C3: every configuration setter is a total function — for every input it
returns a builder, never an error — and out-of-range handle budgets are
clamped: for every n < 1, `max_open(n)` yields the same builder as
`max_open(1)`. -/
theorem config_setters_total (b : WalkBuild) (n : Nat) (h : n < 1) :
    (∀ d, ∃ b2, b.min_depth d = b2) ∧ (∀ d, ∃ b2, b.max_depth d = b2) ∧
    (∀ y, ∃ b2, b.follow_links y = b2) ∧ (∀ m, ∃ b2, b.max_open m = b2) ∧
    (∀ cmp, ∃ b2, b.sort_by cmp = b2) ∧ (∀ y, ∃ b2, b.contents_first y = b2) ∧
    b.max_open n = b.max_open 1 := by
  have hn : n = 0 := Nat.lt_one_iff.1 h
  subst hn
  exact ⟨fun d => ⟨_, rfl⟩, fun d => ⟨_, rfl⟩, fun y => ⟨_, rfl⟩, fun m => ⟨_, rfl⟩,
    fun cmp => ⟨_, rfl⟩, fun y => ⟨_, rfl⟩, rfl⟩

/-- Witness for C3 at the concrete builder for root `root` and n = 0. -/
theorem config_setters_total_witness :
    (0 : Nat) < 1 ∧ (pathDirWalk ["root"]).max_open 0 = (pathDirWalk ["root"]).max_open 1 :=
  ⟨by decide, (config_setters_total (pathDirWalk ["root"]) 0 (by decide)).2.2.2.2.2.2⟩

/-- C4: each configuration method returns a new builder value in which
exactly the named engine option is changed — the root path component and
every other option are carried over unchanged. -/
theorem config_setters_frame (b : WalkBuild) (d d2 n : Nat) (y y2 : Bool)
    (cmp : DirEntry → DirEntry → Ordering) :
    b.min_depth d = WalkBuild.new b.path { b.walk with minDepth := d } ∧
    b.max_depth d2 = WalkBuild.new b.path { b.walk with maxDepth := some d2 } ∧
    b.follow_links y = WalkBuild.new b.path { b.walk with followLinks := y } ∧
    b.max_open n = WalkBuild.new b.path { b.walk with maxOpen := if n = 0 then 1 else n } ∧
    b.sort_by cmp = WalkBuild.new b.path { b.walk with sorter := some cmp } ∧
    b.contents_first y2 = WalkBuild.new b.path { b.walk with contentsFirst := y2 } :=
  ⟨rfl, rfl, rfl, rfl, rfl, rfl⟩

/-- C5: for every tree, with contentsFirst = false every directory position is
yielded strictly before each of its (strict) descendant positions; with
contentsFirst = true strictly after. Positions are yielded without
duplicates, so the sublist facts are strict orderings of the unique
occurrences. -/
theorem contents_first_pre_post_order (t : FsTree) (q tail : List Nat) (j : Nat)
    (h : isPos t (q ++ j :: tail) = true) :
    List.Sublist [q, q ++ j :: tail] (yieldOrder false t) ∧
    List.Sublist [q ++ j :: tail, q] (yieldOrder true t) ∧
    (yieldOrder false t).Nodup ∧ (yieldOrder true t).Nodup := by
  obtain ⟨h1, h2⟩ := before_after q t j tail h
  exact ⟨h1, h2, yieldOrder_nodup false t, yieldOrder_nodup true t⟩

/-- Witness for C5: in `sampleTree`, the root (position nil) is yielded
before its grandchild `sub/b.txt` (position 1,0) in pre-order and after it
in post-order. -/
theorem contents_first_pre_post_order_witness :
    isPos sampleTree ([] ++ 1 :: [0]) = true ∧
    (List.Sublist [[], [] ++ 1 :: [0]] (yieldOrder false sampleTree) ∧
     List.Sublist [[] ++ 1 :: [0], []] (yieldOrder true sampleTree) ∧
     (yieldOrder false sampleTree).Nodup ∧ (yieldOrder true sampleTree).Nodup) :=
  ⟨by decide, contents_first_pre_post_order sampleTree [] [0] 1 (by decide)⟩

/-- C6: for every yielded entry, `was_symlink()` is true iff the raw entry's
own path is a symbolic link, and the result is unchanged when the
follow-links setting is flipped — it reflects the link itself, never its
target. -/
theorem was_symlink_iff_link (fs : Fs) (follow : Bool) (node : RawNode)
    (p : List String) (d : Nat) (e : PathDirEntry)
    (h : PathDirEntry.new fs (mkRawEntry follow node p d) = Except.ok e) :
    (e.was_symlink = true ↔ node.isSymlink = true) ∧
    e.was_symlink = (mkRawEntry (!follow) node p d).pathIsSymlink := by
  have he : e.entry = mkRawEntry follow node p d := by
    unfold PathDirEntry.new at h
    cases hp : PathType.new fs (mkRawEntry follow node p d).path with
    | ok ty =>
      rw [hp] at h
      simp only [Except.ok.injEq] at h
      rw [← h]
    | error er =>
      rw [hp] at h
      exact absurd h (by simp)
  constructor
  · show e.entry.pathIsSymlink = true ↔ node.isSymlink = true
    rw [he]
    exact Iff.rfl
  · show e.entry.pathIsSymlink = (mkRawEntry (!follow) node p d).pathIsSymlink
    rw [he]
    rfl

/-- Witness for C6 at a concrete symlink-to-file raw entry with follow-links
enabled. -/
theorem was_symlink_iff_link_witness :
    PathDirEntry.new lnkFs (mkRawEntry true lnkNode ["root", "lnk"] 1) = Except.ok lnkEntry ∧
    ((lnkEntry.was_symlink = true ↔ lnkNode.isSymlink = true) ∧
      lnkEntry.was_symlink = (mkRawEntry (!true) lnkNode ["root", "lnk"] 1).pathIsSymlink) :=
  ⟨rfl, was_symlink_iff_link lnkFs true lnkNode ["root", "lnk"] 1 lnkEntry rfl⟩

/-- C7: `to_type()` is non-consuming (a pure function of the entry) and
returns exactly the value the consuming `Into<PathType>` conversion
produces. -/
theorem to_type_eq_into (e : PathDirEntry) :
    e.to_type = pathDirEntryIntoPathType e :=
  rfl

/-- C8: destroying the traversal sequence value after any number of pulls —
zero (never pulled), some (partially consumed), or enough to finish — closes
every directory handle the traversal ever opened: the handles closed during
traversal plus the stack frames closed by destruction account for every
opened handle. -/
theorem handles_released_on_destroy (t : FsTree) (n : Nat) :
    closedAfterDestroy (runIter n (initState t)) = (runIter n (initState t)).openedCount := by
  induction n with
  | zero => rfl
  | succ n ih => exact stepState_inv (runIter n (initState t)) ih

/-- C9: the classification stored at construction is the single value exposed
by every access path: `AsRef<PathType>`, `Deref`, `to_type()` and the
consuming `Into<PathType>` all yield the stored classification — which is
exactly the result `PathType::new` produced at construction — and none of
them re-runs classification (each is a function of the stored value only,
taking no filesystem). -/
theorem accessors_single_classification (fs : Fs) (raw : DirEntry) (e : PathDirEntry)
    (h : PathDirEntry.new fs raw = Except.ok e) :
    PathType.new fs raw.path = Except.ok e.ty ∧
    pathDirEntryAsRef e = e.ty ∧ pathDirEntryDeref e = e.ty ∧
    e.to_type = e.ty ∧ pathDirEntryIntoPathType e = e.ty := by
  refine ⟨?_, rfl, rfl, rfl, rfl⟩
  unfold PathDirEntry.new at h
  cases hp : PathType.new fs raw.path with
  | ok ty =>
    rw [hp] at h
    simp only [Except.ok.injEq] at h
    rw [← h]
  | error er =>
    rw [hp] at h
    exact absurd h (by simp)

/-- Witness for C9 at the concrete entry for `root/a.txt`. -/
theorem accessors_single_classification_witness :
    PathDirEntry.new fsSample rawSampleA = Except.ok entrySampleA ∧
    (PathType.new fsSample rawSampleA.path = Except.ok entrySampleA.ty ∧
      pathDirEntryAsRef entrySampleA = entrySampleA.ty ∧
      pathDirEntryDeref entrySampleA = entrySampleA.ty ∧
      entrySampleA.to_type = entrySampleA.ty ∧
      pathDirEntryIntoPathType entrySampleA = entrySampleA.ty) :=
  ⟨rfl, accessors_single_classification fsSample rawSampleA entrySampleA rfl⟩

/-- C10: `depth()`, `was_symlink()` and `to_type()` are deterministic pure
functions of the entry's stored state: entries with equal stored state give
equal results, and each result is read off the stored fields (no filesystem
argument exists to access, and the entry is unchanged). -/
theorem accessors_pure (e1 e2 : PathDirEntry) (hty : e1.ty = e2.ty)
    (hent : e1.entry = e2.entry) :
    (e1.depth = e2.depth ∧ e1.was_symlink = e2.was_symlink ∧ e1.to_type = e2.to_type) ∧
    (e1.depth = e1.entry.depth ∧ e1.was_symlink = e1.entry.pathIsSymlink ∧
      e1.to_type = e1.ty) := by
  obtain ⟨t1, r1⟩ := e1
  obtain ⟨t2, r2⟩ := e2
  cases hty
  cases hent
  exact ⟨⟨rfl, rfl, rfl⟩, rfl, rfl, rfl⟩

/-- Witness for C10 at the concrete entry for `root/a.txt`. -/
theorem accessors_pure_witness :
    entrySampleA.ty = entrySampleA.ty ∧ entrySampleA.entry = entrySampleA.entry ∧
    ((entrySampleA.depth = entrySampleA.depth ∧
      entrySampleA.was_symlink = entrySampleA.was_symlink ∧
      entrySampleA.to_type = entrySampleA.to_type) ∧
     (entrySampleA.depth = entrySampleA.entry.depth ∧
      entrySampleA.was_symlink = entrySampleA.entry.pathIsSymlink ∧
      entrySampleA.to_type = entrySampleA.ty)) :=
  ⟨rfl, rfl, accessors_pure entrySampleA entrySampleA rfl rfl⟩

end ErgoFs
